import Mathlib

/-!
Verification of the Kubernetes Go client (`pkg/client/client.go`).

Modelling conventions:
* A Go `string` (and a `[]byte` body) is modelled as `List Char` (`Str`);
  Go string concatenation is list append, and Go's `strings.Split` with a
  one-character separator is `splitChar`.
* A Go `map[string]string` is modelled as an association list in insertion
  order; `mapInsert` is Go map assignment `m[k] = v` (update in place,
  otherwise append) and `mapLookup` is map indexing.  Iteration order of a
  Go map is unspecified, so every theorem that consumes a map quantifies
  over the enumeration (the association list carrying any order).
* The external collaborators (`net/http` transport, `io/ioutil.ReadAll`,
  `api.DecodeInto`, `json.Marshal`, `http.NewRequest` failure) are inputs of
  the model (`Env`), and their outcomes are inspected exactly where the Go
  code inspects them.  `log.Printf` diagnostics have no observable effect.
* Each client method additionally returns the list of requests it handed to
  `rawRequest`, so "performs no network call" is "the trace is empty".
-/

namespace KubeClient

/-- A Go string / byte slice, modelled as its list of characters. -/
abbrev Str := List Char

/-- Coerce a Lean string literal into the model. -/
def str (s : String) : Str := s.toList

/-- One step of `splitChar`: prepend character `c` to an already-split
suffix, either opening a new fragment (when `c` is the separator) or
extending the first fragment. -/
def splitStep (sep c : Char) (acc : List Str) : List Str :=
  match acc with
  | [] => [[]]
  | h :: t => if c = sep then [] :: h :: t else (c :: h) :: t

/-- Go `strings.Split(s, sep)` for a one-character separator `sep`.
Like Go, splitting the empty string yields one empty fragment. -/
def splitChar (sep : Char) (l : Str) : List Str := l.foldr (splitStep sep) [[]]

/-- Go map assignment `m[k] = v` on the association-list model of a map:
replace the value in place when the key is present, append otherwise. -/
def mapInsert (k v : Str) : List (Str × Str) → List (Str × Str)
  | [] => [(k, v)]
  | (k', v') :: rest => if k' = k then (k, v) :: rest else (k', v') :: mapInsert k v rest

/-- Go map indexing `m[k]` (with presence flag) on the association-list model. -/
def mapLookup (k : Str) : List (Str × Str) → Option Str
  | [] => none
  | (k', v) :: rest => if k' = k then some v else mapLookup k rest

/-- Go `strings.Join(parts, ",")`. -/
def joinComma : List Str → Str
  | [] => []
  | x :: xs =>
    match xs with
    | [] => x
    | _ :: _ => x ++ ',' :: joinComma xs

/-- The upper-case hexadecimal digit used by Go's `net/url` escaping. -/
def hexDigit (n : Nat) : Char := (str "0123456789ABCDEF").getD n '0'

/-- One character of Go `url.QueryEscape`: ASCII letters, digits and
`-`, `_`, `.`, `~` are kept, a space becomes `+`, and every other byte
becomes `%XX` (upper-case hex).  The model covers the single-byte (ASCII)
characters the client actually sends. -/
def queryEscapeChar (c : Char) : Str :=
  if ('a' ≤ c ∧ c ≤ 'z') ∨ ('A' ≤ c ∧ c ≤ 'Z') ∨ ('0' ≤ c ∧ c ≤ '9')
      ∨ c = '-' ∨ c = '_' ∨ c = '.' ∨ c = '~' then
    [c]
  else if c = ' ' then
    ['+']
  else
    '%' :: hexDigit (c.toNat / 16 % 16) :: [hexDigit (c.toNat % 16)]

/-- Go `url.QueryEscape`. -/
def queryEscape (s : Str) : Str := (s.map queryEscapeChar).flatten

/-- The `key+"="+value` fragments of a selector, in the map's iteration
order (the order carried by the association list). -/
def selectorParts (selector : List (Str × Str)) : List Str :=
  selector.map fun p => p.1 ++ '=' :: p.2

/-- The comma-join of the `key=value` fragments, before URL escaping
(the intermediate value `strings.Join(parts, ",")` inside `EncodeSelector`). -/
def joinSelector (selector : List (Str × Str)) : Str :=
  joinComma (selectorParts selector)

/-- `EncodeSelector` (client.go:132-138): joins the `key=value` pairs with
commas in iteration order, then URL-escapes the whole joined string. -/
def EncodeSelector (selector : List (Str × Str)) : Str :=
  queryEscape (joinSelector selector)

/-- One fragment of `DecodeSelector`'s loop (client.go:148-155): a fragment
splitting on `=` into exactly two pieces contributes one map entry, any
other fragment is skipped (the Go code only logs a diagnostic). -/
def decodeStep (result : List (Str × Str)) (part : Str) : List (Str × Str) :=
  match splitChar '=' part with
  | [k, v] => mapInsert k v result
  | _ => result

/-- `DecodeSelector` (client.go:142-157): the empty string yields the empty
map, otherwise the input is split on commas and each fragment is processed
by `decodeStep`. -/
def DecodeSelector (selector : Str) : List (Str × Str) :=
  if selector.length = 0 then []
  else (splitChar ',' selector).foldl decodeStep []

example : splitChar ',' (str "a=1,b") = [str "a=1", str "b"] := by decide
example : DecodeSelector (str "a=1,b") = [(str "a", str "1")] := by decide
example : EncodeSelector [(str "a", str "1")] = str "a%3D1" := by decide
example : DecodeSelector (EncodeSelector [(str "a", str "1")]) = [] := by decide
example : DecodeSelector (str "a=1,a=2") = [(str "a", str "2")] := by decide

/-- The outcome of `ioutil.ReadAll(response.Body)`: either the full body, or
the bytes read so far together with a read error. -/
inductive ReadResult where
  | ok (body : Str)
  | readErr (bodySoFar : Str) (e : Str)
deriving DecidableEq

/-- The outcome of `c.httpClient.Do(request)` followed by reading the body:
either a transport-level failure, or a response with a numeric status code,
a status line (Go `response.Status`, e.g. `"404 Not Found"`) and a body read
outcome. -/
inductive TransportResult where
  | transportErr (e : Str)
  | response (status : Nat) (statusText : Str) (read : ReadResult)
deriving DecidableEq

/-- The error text built at client.go:97:
`fmt.Errorf("request [%#v] failed (%d) %s: %s", request, code, status, body)`.
`reqStr` stands for the `%#v` rendering of the request value. -/
def errMsg (reqStr : Str) (status : Nat) (statusText body : Str) : Str :=
  str "request [" ++ reqStr ++ str "] failed (" ++ str (toString status)
    ++ str ") " ++ statusText ++ str ": " ++ body

/-- `doRequest` (client.go:83-100).  Basic-auth injection only mutates the
request headers and is not observable in any claim, so it is not modelled.
A transport error returns the empty slice with the error; a body read error
returns the bytes read so far with the error; a status outside
`[http.StatusOK, http.StatusPartialContent]` = `[200, 206]` returns `nil`
(the empty slice) with the diagnostic error; otherwise the body with no
error. -/
def doRequest (reqStr : Str) (tr : TransportResult) : Str × Option Str :=
  match tr with
  | .transportErr e => ([], some e)
  | .response status statusText read =>
    match read with
    | .readErr bodySoFar e => (bodySoFar, some e)
    | .ok body =>
      if status < 200 ∨ status > 206 then
        ([], some (errMsg reqStr status statusText body))
      else
        (body, none)

/-- A request handed to `rawRequest`: the HTTP method, the full URL built by
`makeURL`, the relative path, and the optional request body. -/
structure Request where
  method : Str
  url : Str
  path : Str
  body : Option Str
deriving DecidableEq

/-- The external collaborators of one client call: the configured host, the
outcome of `http.NewRequest` (`some e` when request construction fails), the
`%#v` rendering used in error messages, the transport outcome, and the
outcome of `api.DecodeInto` on a given body (`some e` when decoding fails). -/
structure Env where
  host : Str
  newReqErr : Option Str
  reqRepr : Request → Str
  transport : TransportResult
  decodeInto : Str → Option Str

/-- `makeURL` (client.go:126-128). -/
def makeURL (host path : Str) : Str := host ++ str "/api/v1beta1/" ++ path

/-- `rawRequest` (client.go:107-124), instrumented with the request it was
asked to perform.  On `http.NewRequest` failure it returns the empty slice
and that error; on a `doRequest` error it propagates that body and error;
on success with a non-nil target it returns the body together with the
`api.DecodeInto` outcome (the decode error is logged and still returned);
with a nil target the body is returned with no error. -/
def rawRequest (env : Env) (method path : Str) (requestBody : Option Str)
    (hasTarget : Bool) : (Str × Option Str) × List Request :=
  match env.newReqErr with
  | some e => (([], some e), [⟨method, makeURL env.host path, path, requestBody⟩])
  | none =>
    match doRequest (env.reqRepr ⟨method, makeURL env.host path, path, requestBody⟩)
        env.transport with
    | (body, some e) => ((body, some e), [⟨method, makeURL env.host path, path, requestBody⟩])
    | (body, none) =>
      ((body, if hasTarget then env.decodeInto body else none),
        [⟨method, makeURL env.host path, path, requestBody⟩])

/-- `api.Pod`: only the `ID` field is used by the client (update paths). -/
structure Pod where
  ID : Str

/-- `api.ReplicationController`: only the `ID` field is used by the client. -/
structure ReplicationController where
  ID : Str

/-- `api.Service`: only the `ID` field is used by the client. -/
structure Service where
  ID : Str

/-- `ListPods` (client.go:160-168).  A `nil` and an empty selector are both
the empty association list.  The typed `api.PodList` result is produced by
the external decoder and is not part of the model; the method's error and
its `rawRequest` trace are returned. -/
def ListPods (env : Env) (selector : List (Str × Str)) : Option Str × List Request :=
  let path :=
    if selector.length > 0 then str "pods" ++ str "?labels=" ++ EncodeSelector selector
    else str "pods"
  let r := rawRequest env (str "GET") path none true
  (r.1.2, r.2)

/-- `GetPod` (client.go:171-175). -/
def GetPod (env : Env) (name : Str) : Option Str × List Request :=
  let r := rawRequest env (str "GET") (str "pods/" ++ name) none true
  (r.1.2, r.2)

/-- `DeletePod` (client.go:178-181): a DELETE with no request body and no
decode target; only the error (and the trace) is returned. -/
def DeletePod (env : Env) (name : Str) : Option Str × List Request :=
  let r := rawRequest env (str "DELETE") (str "pods/" ++ name) none false
  (r.1.2, r.2)

/-- `CreatePod` (client.go:184-191).  `marshal` is the outcome of the
external `json.Marshal(pod)`; on its failure the method returns that error
and never reaches `rawRequest`. -/
def CreatePod (env : Env) (_pod : Pod) (marshal : Except Str Str) : Option Str × List Request :=
  match marshal with
  | .error e => (some e, [])
  | .ok body =>
    let r := rawRequest env (str "POST") (str "pods") (some body) true
    (r.1.2, r.2)

/-- `UpdatePod` (client.go:194-201). -/
def UpdatePod (env : Env) (pod : Pod) (marshal : Except Str Str) : Option Str × List Request :=
  match marshal with
  | .error e => (some e, [])
  | .ok body =>
    let r := rawRequest env (str "PUT") (str "pods/" ++ pod.ID) (some body) true
    (r.1.2, r.2)

/-- `GetReplicationController` (client.go:204-208). -/
def GetReplicationController (env : Env) (name : Str) : Option Str × List Request :=
  let r := rawRequest env (str "GET") (str "replicationControllers/" ++ name) none true
  (r.1.2, r.2)

/-- `CreateReplicationController` (client.go:211-218). -/
def CreateReplicationController (env : Env) (_controller : ReplicationController)
    (marshal : Except Str Str) : Option Str × List Request :=
  match marshal with
  | .error e => (some e, [])
  | .ok body =>
    let r := rawRequest env (str "POST") (str "replicationControllers") (some body) true
    (r.1.2, r.2)

/-- `UpdateReplicationController` (client.go:221-228). -/
def UpdateReplicationController (env : Env) (controller : ReplicationController)
    (marshal : Except Str Str) : Option Str × List Request :=
  match marshal with
  | .error e => (some e, [])
  | .ok body =>
    let r := rawRequest env (str "PUT") (str "replicationControllers/" ++ controller.ID) (some body) true
    (r.1.2, r.2)

/-- `DeleteReplicationController` (client.go:230-233). -/
def DeleteReplicationController (env : Env) (name : Str) : Option Str × List Request :=
  let r := rawRequest env (str "DELETE") (str "replicationControllers/" ++ name) none false
  (r.1.2, r.2)

/-- `GetService` (client.go:236-240). -/
def GetService (env : Env) (name : Str) : Option Str × List Request :=
  let r := rawRequest env (str "GET") (str "services/" ++ name) none true
  (r.1.2, r.2)

/-- `CreateService` (client.go:243-250). -/
def CreateService (env : Env) (_svc : Service) (marshal : Except Str Str) : Option Str × List Request :=
  match marshal with
  | .error e => (some e, [])
  | .ok body =>
    let r := rawRequest env (str "POST") (str "services") (some body) true
    (r.1.2, r.2)

/-- `UpdateService` (client.go:253-260). -/
def UpdateService (env : Env) (svc : Service) (marshal : Except Str Str) : Option Str × List Request :=
  match marshal with
  | .error e => (some e, [])
  | .ok body =>
    let r := rawRequest env (str "PUT") (str "services/" ++ svc.ID) (some body) true
    (r.1.2, r.2)

/-- `DeleteService` (client.go:262-265). -/
def DeleteService (env : Env) (name : Str) : Option Str × List Request :=
  let r := rawRequest env (str "DELETE") (str "services/" ++ name) none false
  (r.1.2, r.2)

/-! ### Lemmas about splitting and the map model -/

theorem splitChar_nil (sep : Char) : splitChar sep [] = [[]] := rfl

theorem splitChar_cons (sep c : Char) (rest : Str) :
    splitChar sep (c :: rest) = splitStep sep c (splitChar sep rest) := rfl

theorem splitChar_ne_nil (sep : Char) (l : Str) : splitChar sep l ≠ [] := by
  induction l with
  | nil => simp [splitChar_nil]
  | cons c rest ih =>
    rw [splitChar_cons]
    cases h : splitChar sep rest with
    | nil => simp [splitStep]
    | cons hd tl =>
      by_cases hc : c = sep <;> simp [splitStep, hc]

theorem splitChar_cons_sep (sep : Char) (b : Str) :
    splitChar sep (sep :: b) = [] :: splitChar sep b := by
  rw [splitChar_cons]
  cases h : splitChar sep b with
  | nil => exact absurd h (splitChar_ne_nil sep b)
  | cons hd tl => simp [splitStep]

theorem splitChar_append (sep : Char) (a b : Str) :
    splitChar sep (a ++ sep :: b) = splitChar sep a ++ splitChar sep b := by
  induction a with
  | nil =>
    rw [List.nil_append, splitChar_cons_sep, splitChar_nil]
    rfl
  | cons c rest ih =>
    rw [List.cons_append, splitChar_cons, ih, splitChar_cons]
    cases h : splitChar sep rest with
    | nil => exact absurd h (splitChar_ne_nil sep rest)
    | cons hd tl =>
      by_cases hc : c = sep <;> simp [splitStep, hc]

theorem splitChar_of_not_mem {sep : Char} {l : Str} (h : sep ∉ l) :
    splitChar sep l = [l] := by
  induction l with
  | nil => rfl
  | cons c rest ih =>
    have hc : ¬c = sep := fun he => h (he ▸ List.mem_cons_self c rest)
    have hr : sep ∉ rest := fun hm => h (List.mem_cons_of_mem c hm)
    rw [splitChar_cons, ih hr]
    simp [splitStep, hc]

theorem splitChar_pair {k v : Str} (hk : '=' ∉ k) (hv : '=' ∉ v) :
    splitChar '=' (k ++ '=' :: v) = [k, v] := by
  rw [splitChar_append, splitChar_of_not_mem hk, splitChar_of_not_mem hv]
  rfl

theorem mapInsert_of_not_mem {k : Str} {m : List (Str × Str)} (v : Str)
    (h : k ∉ m.map Prod.fst) : mapInsert k v m = m ++ [(k, v)] := by
  induction m with
  | nil => rfl
  | cons p rest ih =>
    have h1 : p.1 ≠ k := by
      intro he
      exact h (by simp [he])
    have h2 : k ∉ rest.map Prod.fst := by
      intro hm
      exact h (by simp [hm])
    cases p with
    | mk k' v' =>
      simp only [mapInsert, if_neg h1, List.cons_append]
      rw [ih h2]

theorem mapLookup_mapInsert_self (k v : Str) (m : List (Str × Str)) :
    mapLookup k (mapInsert k v m) = some v := by
  induction m with
  | nil => simp [mapInsert, mapLookup]
  | cons p rest ih =>
    cases p with
    | mk k' v' =>
      by_cases h : k' = k
      · simp [mapInsert, mapLookup, h]
      · simp [mapInsert, mapLookup, h, ih]

theorem mapInsert_map_fst (k v : Str) (m : List (Str × Str)) :
    (mapInsert k v m).map Prod.fst =
      if k ∈ m.map Prod.fst then m.map Prod.fst else m.map Prod.fst ++ [k] := by
  induction m with
  | nil => simp [mapInsert]
  | cons p rest ih =>
    cases p with
    | mk k' v' =>
      by_cases h : k' = k
      · simp [mapInsert, h]
      · have hks : ¬k = k' := fun he => h he.symm
        by_cases hm : k ∈ rest.map Prod.fst
        · simp [mapInsert, h, hm, ih, hks]
        · simp [mapInsert, h, hm, ih, hks]

theorem mapInsert_nodup_fst {m : List (Str × Str)} (k v : Str)
    (h : (m.map Prod.fst).Nodup) : ((mapInsert k v m).map Prod.fst).Nodup := by
  rw [mapInsert_map_fst]
  by_cases hm : k ∈ m.map Prod.fst
  · simpa [hm]
  · simp only [hm, if_false]
    rw [List.nodup_append]
    refine ⟨h, List.nodup_singleton k, ?_⟩
    intro a ha hb
    rw [List.mem_singleton] at hb
    exact hm (hb ▸ ha)

theorem decodeStep_nodup_fst {m : List (Str × Str)} (part : Str)
    (h : (m.map Prod.fst).Nodup) : ((decodeStep m part).map Prod.fst).Nodup := by
  unfold decodeStep
  cases hs : splitChar '=' part with
  | nil => exact h
  | cons a t =>
    cases t with
    | nil => exact h
    | cons b t2 =>
      cases t2 with
      | nil => exact mapInsert_nodup_fst a b h
      | cons c t3 => exact h

theorem foldl_decodeStep_nodup_fst (parts : List Str) :
    ∀ (acc : List (Str × Str)), (acc.map Prod.fst).Nodup →
      ((parts.foldl decodeStep acc).map Prod.fst).Nodup := by
  induction parts with
  | nil => exact fun acc h => h
  | cons p rest ih =>
    intro acc h
    exact ih (decodeStep acc p) (decodeStep_nodup_fst p h)

/-! ### Lemmas about joining and the encode/decode round trip -/

theorem joinComma_nil : joinComma [] = [] := rfl

theorem joinComma_single (x : Str) : joinComma [x] = x := rfl

theorem joinComma_cons_cons (x y : Str) (ys : List Str) :
    joinComma (x :: y :: ys) = x ++ ',' :: joinComma (y :: ys) := rfl

theorem splitChar_joinComma {parts : List Str} (hne : parts ≠ [])
    (h : ∀ x ∈ parts, ',' ∉ x) : splitChar ',' (joinComma parts) = parts := by
  induction parts with
  | nil => exact absurd rfl hne
  | cons x xs ih =>
    cases xs with
    | nil =>
      rw [joinComma_single]
      exact splitChar_of_not_mem (h x (List.mem_cons_self x []))
    | cons y ys =>
      rw [joinComma_cons_cons, splitChar_append,
        splitChar_of_not_mem (h x (List.mem_cons_self x (y :: ys))),
        ih (List.cons_ne_nil y ys) (fun z hz => h z (List.mem_cons_of_mem x hz))]
      rfl

theorem selectorParts_no_comma {l : List (Str × Str)}
    (hcl : ∀ p ∈ l, '=' ∉ p.1 ∧ '=' ∉ p.2 ∧ ',' ∉ p.1 ∧ ',' ∉ p.2) :
    ∀ x ∈ selectorParts l, ',' ∉ x := by
  intro x hx
  rw [selectorParts, List.mem_map] at hx
  obtain ⟨p, hp, rfl⟩ := hx
  obtain ⟨-, -, h1, h2⟩ := hcl p hp
  intro hc
  rcases List.mem_append.mp hc with hk | hv
  · exact h1 hk
  · rcases List.mem_cons.mp hv with he | hv2
    · exact absurd he (by decide)
    · exact h2 hv2

theorem joinSelector_cons_ne_nil (p : Str × Str) (rest : List (Str × Str)) :
    joinSelector (p :: rest) ≠ [] := by
  rw [joinSelector, selectorParts, List.map_cons]
  cases h : rest.map (fun p => p.1 ++ '=' :: p.2) with
  | nil => simp [joinComma_single]
  | cons a t => simp [joinComma_cons_cons]

theorem foldl_decodeStep_selectorParts (l : List (Str × Str)) :
    ∀ (acc : List (Str × Str)), (l.map Prod.fst).Nodup →
      (∀ p ∈ l, '=' ∉ p.1 ∧ '=' ∉ p.2) →
      (∀ p ∈ l, p.1 ∉ acc.map Prod.fst) →
      (selectorParts l).foldl decodeStep acc = acc ++ l := by
  induction l with
  | nil =>
    intro acc _ _ _
    simp [selectorParts]
  | cons p rest ih =>
    intro acc hnd hcl hacc
    obtain ⟨k, v⟩ := p
    obtain ⟨hk, hv⟩ := hcl (k, v) (List.mem_cons_self _ _)
    simp only [selectorParts, List.map_cons, List.foldl_cons]
    have hstep : decodeStep acc (k ++ '=' :: v) = mapInsert k v acc := by
      rw [decodeStep, splitChar_pair hk hv]
    have hnd2 : (k :: rest.map Prod.fst).Nodup := by
      rw [List.map_cons] at hnd
      exact hnd
    have hknd : k ∉ rest.map Prod.fst := (List.nodup_cons.mp hnd2).1
    have hrest : (rest.map Prod.fst).Nodup := (List.nodup_cons.mp hnd2).2
    rw [hstep, mapInsert_of_not_mem v (hacc (k, v) (List.mem_cons_self _ _))]
    rw [show selectorParts rest = rest.map (fun p => p.1 ++ '=' :: p.2) from rfl] at ih
    rw [ih (acc ++ [(k, v)]) hrest
      (fun q hq => hcl q (List.mem_cons_of_mem _ hq))
      ?_]
    · simp
    · intro q hq
      rw [List.map_append, List.mem_append]
      intro hmem
      rcases hmem with hin | hin
      · exact hacc q (List.mem_cons_of_mem _ hq) hin
      · rw [List.map_cons, List.map_nil, List.mem_singleton] at hin
        refine hknd ?_
        have hqk : q.1 = k := hin
        rw [← hqk]
        exact List.mem_map_of_mem Prod.fst hq

/-! ### Lemmas about the request pipeline -/

theorem rawRequest_trace (env : Env) (method path : Str) (requestBody : Option Str)
    (hasTarget : Bool) :
    (rawRequest env method path requestBody hasTarget).2 =
      [⟨method, makeURL env.host path, path, requestBody⟩] := by
  rw [rawRequest]
  cases env.newReqErr with
  | some e => rfl
  | none =>
    cases h : doRequest (env.reqRepr ⟨method, makeURL env.host path, path, requestBody⟩)
        env.transport with
    | mk body err =>
      cases err with
      | some e => rfl
      | none => rfl

theorem rawRequest_ok (env : Env) (method path : Str) (requestBody : Option Str)
    (hasTarget : Bool) (status : Nat) (statusText body : Str)
    (h1 : env.newReqErr = none)
    (h2 : env.transport = .response status statusText (.ok body))
    (h3 : 200 ≤ status) (h4 : status ≤ 206) :
    (rawRequest env method path requestBody hasTarget).1 =
      (body, if hasTarget then env.decodeInto body else none) := by
  rw [rawRequest, h1, h2]
  have hdo : doRequest
      (env.reqRepr ⟨method, makeURL env.host path, path, requestBody⟩)
      (.response status statusText (.ok body)) = (body, none) := by
    rw [doRequest, if_neg (by omega)]
  rw [hdo]

theorem DecodeSelector_joinSelector {l : List (Str × Str)}
    (hnd : (l.map Prod.fst).Nodup)
    (hcl : ∀ p ∈ l, '=' ∉ p.1 ∧ '=' ∉ p.2 ∧ ',' ∉ p.1 ∧ ',' ∉ p.2) :
    DecodeSelector (joinSelector l) = l := by
  cases l with
  | nil => rfl
  | cons p rest =>
    have hne := joinSelector_cons_ne_nil p rest
    rw [DecodeSelector, if_neg (by simpa using fun h => hne (List.length_eq_zero.mp h))]
    rw [joinSelector, splitChar_joinComma (by simp [selectorParts]) (selectorParts_no_comma hcl)]
    rw [show joinSelector (p :: rest) = joinComma (selectorParts (p :: rest)) from rfl] at hne
    rw [foldl_decodeStep_selectorParts (p :: rest) [] hnd
      (fun q hq => ⟨(hcl q hq).1, (hcl q hq).2.1⟩) (by simp)]
    simp

/-! ### The claims -/

/-- C1 (counterexample): the claim "the byte slice returned alongside the
error equals the raw response body" is false.  On a 404 response with body
`"oops"` (a status outside `[200, 206]`), `doRequest` returns the empty
slice (`nil` at client.go:97), not the body. -/
theorem doRequest_statusError_body_not_returned :
    (404 < 200 ∨ 404 > 206) ∧
    (doRequest (str "req") (.response 404 (str "404 Not Found") (.ok (str "oops")))).2.isSome ∧
    (doRequest (str "req") (.response 404 (str "404 Not Found") (.ok (str "oops")))).1 = [] ∧
    (doRequest (str "req") (.response 404 (str "404 Not Found") (.ok (str "oops")))).1 ≠ str "oops" := by
  decide

/-- C1 (amended): for every response whose HTTP status is outside
`[200, 206]`, `doRequest` returns an error whose text contains the literal
status code and the response body text, and the byte slice returned
alongside the error is the empty (`nil`) slice, not the raw response body. -/
theorem doRequest_statusError_diagnostic (reqStr statusText body : Str) (status : Nat)
    (h : status < 200 ∨ status > 206) :
    doRequest reqStr (.response status statusText (.ok body)) =
      ([], some (errMsg reqStr status statusText body)) ∧
    ∃ pre mid, errMsg reqStr status statusText body =
      pre ++ str (toString status) ++ mid ++ body := by
  constructor
  · rw [doRequest, if_pos h]
  · exact ⟨str "request [" ++ reqStr ++ str "] failed (",
      str ") " ++ statusText ++ str ": ",
      by simp [errMsg, List.append_assoc]⟩

/-- Witness for C1's amended theorem at a concrete 404 response. -/
theorem doRequest_statusError_diagnostic_witness :
    doRequest (str "req") (.response 404 (str "404 Not Found") (.ok (str "oops"))) =
      ([], some (errMsg (str "req") 404 (str "404 Not Found") (str "oops"))) ∧
    ∃ pre mid, errMsg (str "req") 404 (str "404 Not Found") (str "oops") =
      pre ++ str (toString 404) ++ mid ++ str "oops" :=
  doRequest_statusError_diagnostic (str "req") (str "404 Not Found") (str "oops") 404
    (by decide)

/-- C2 (counterexample): the claim `DecodeSelector (EncodeSelector S) = S`
is false for the one-entry selector `{"a": "1"}`, whose keys and values
contain neither `=` nor `,`.  `EncodeSelector` URL-escapes the joined
string (`"a=1"` becomes `"a%3D1"`), `DecodeSelector` performs no
unescaping, so the round trip yields the empty map. -/
theorem selector_roundTrip_fails_nonempty :
    ('=' ∉ str "a" ∧ '=' ∉ str "1" ∧ ',' ∉ str "a" ∧ ',' ∉ str "1") ∧
    EncodeSelector [(str "a", str "1")] = str "a%3D1" ∧
    DecodeSelector (EncodeSelector [(str "a", str "1")]) = [] ∧
    mapLookup (str "a") (DecodeSelector (EncodeSelector [(str "a", str "1")])) = none ∧
    DecodeSelector (EncodeSelector [(str "a", str "1")]) ≠ [(str "a", str "1")] := by
  decide

/-- C2 (amended): `DecodeSelector` inverts the comma-join of the
`key=value` fragments before URL escaping: for every selector whose keys
are distinct and whose keys and values contain neither `=` nor `,`, and for
every iteration order of the map, decoding `joinSelector S` yields exactly
S.  The actual `EncodeSelector` additionally URL-escapes the joined string,
which `DecodeSelector` does not undo, so the literal round trip
`DecodeSelector (EncodeSelector S) = S` holds only for the empty selector. -/
theorem selector_roundTrip_preEscape {l : List (Str × Str)}
    (hnd : (l.map Prod.fst).Nodup)
    (hcl : ∀ p ∈ l, '=' ∉ p.1 ∧ '=' ∉ p.2 ∧ ',' ∉ p.1 ∧ ',' ∉ p.2) :
    DecodeSelector (joinSelector l) = l ∧
    (l = [] → DecodeSelector (EncodeSelector l) = l) := by
  refine ⟨DecodeSelector_joinSelector hnd hcl, ?_⟩
  intro h
  subst h
  rfl

/-- Witness for C2's amended theorem at the two-entry selector
`{"a": "1", "b": "2"}` in one iteration order. -/
theorem selector_roundTrip_preEscape_witness :
    DecodeSelector (joinSelector [(str "a", str "1"), (str "b", str "2")]) =
      [(str "a", str "1"), (str "b", str "2")] ∧
    ([(str "a", str "1"), (str "b", str "2")] = ([] : List (Str × Str)) →
      DecodeSelector (EncodeSelector [(str "a", str "1"), (str "b", str "2")]) =
        [(str "a", str "1"), (str "b", str "2")]) :=
  selector_roundTrip_preEscape (by decide) (by decide)

/-- C3: `doRequest` treats a fully-read response as success (no error)
exactly when its status lies in the inclusive range `[200, 206]`; in
particular 206 is success and 207 is failure. -/
theorem doRequest_status_classification :
    (∀ (reqStr statusText body : Str) (status : Nat),
      (doRequest reqStr (.response status statusText (.ok body))).2 = none ↔
        200 ≤ status ∧ status ≤ 206) ∧
    (∀ reqStr statusText body : Str,
      (doRequest reqStr (.response 206 statusText (.ok body))).2 = none) ∧
    (∀ reqStr statusText body : Str,
      (doRequest reqStr (.response 207 statusText (.ok body))).2 ≠ none) := by
  refine ⟨?_, ?_, ?_⟩
  · intro reqStr statusText body status
    rw [doRequest]
    by_cases h : status < 200 ∨ status > 206
    · rw [if_pos h]
      simp
      omega
    · rw [if_neg h]
      simp
      omega
  · intro reqStr statusText body
    rw [doRequest, if_neg (by omega)]
  · intro reqStr statusText body
    rw [doRequest, if_pos (by omega)]
    simp

/-- Witness for C3 at a concrete 206 response. -/
theorem doRequest_status_classification_witness :
    (doRequest (str "req") (.response 206 (str "206 Partial Content") (.ok (str "b")))).2 = none :=
  doRequest_status_classification.2.1 (str "req") (str "206 Partial Content") (str "b")

/-- C4: `DecodeSelector` is total and never errors: the empty string yields
the empty map; a non-empty string is split on commas and folded with
`decodeStep`; a fragment splitting on `=` into exactly two pieces
contributes one entry, any fragment with another piece count leaves the map
unchanged; in particular `"a=1,b"` decodes to `{"a": "1"}`. -/
theorem decodeSelector_total_degrade :
    DecodeSelector [] = [] ∧
    DecodeSelector (str "a=1,b") = [(str "a", str "1")] ∧
    (∀ s : Str, s.length ≠ 0 →
      DecodeSelector s = (splitChar ',' s).foldl decodeStep []) ∧
    (∀ (m : List (Str × Str)) (part k v : Str), splitChar '=' part = [k, v] →
      decodeStep m part = mapInsert k v m) ∧
    (∀ (m : List (Str × Str)) (part : Str), (splitChar '=' part).length ≠ 2 →
      decodeStep m part = m) := by
  refine ⟨rfl, by decide, ?_, ?_, ?_⟩
  · intro s h
    rw [DecodeSelector, if_neg h]
  · intro m part k v h
    rw [decodeStep, h]
  · intro m part h
    rw [decodeStep]
    cases hs : splitChar '=' part with
    | nil => rfl
    | cons a t =>
      cases t with
      | nil => rfl
      | cons b t2 =>
        cases t2 with
        | nil =>
          rw [hs] at h
          simp at h
        | cons c t3 => rfl

/-- Witness for C4 at a concrete non-empty wire string and a concrete
malformed fragment. -/
theorem decodeSelector_total_degrade_witness :
    (DecodeSelector (str "x") = (splitChar ',' (str "x")).foldl decodeStep []) ∧
    decodeStep [] (str "b") = [] :=
  ⟨decodeSelector_total_degrade.2.2.1 (str "x") (by decide),
    decodeSelector_total_degrade.2.2.2.2 [] (str "b") (by decide)⟩

/-- C5: every body-carrying client method returns the `json.Marshal` error
unchanged and performs no network call (its `rawRequest` trace is empty)
when marshalling the request object fails. -/
theorem create_update_marshalError_noNetwork :
    (∀ (env : Env) (pod : Pod) (e : Str),
      CreatePod env pod (.error e) = (some e, [])) ∧
    (∀ (env : Env) (pod : Pod) (e : Str),
      UpdatePod env pod (.error e) = (some e, [])) ∧
    (∀ (env : Env) (rc : ReplicationController) (e : Str),
      CreateReplicationController env rc (.error e) = (some e, [])) ∧
    (∀ (env : Env) (rc : ReplicationController) (e : Str),
      UpdateReplicationController env rc (.error e) = (some e, [])) ∧
    (∀ (env : Env) (svc : Service) (e : Str),
      CreateService env svc (.error e) = (some e, [])) ∧
    (∀ (env : Env) (svc : Service) (e : Str),
      UpdateService env svc (.error e) = (some e, [])) := by
  refine ⟨?_, ?_, ?_, ?_, ?_, ?_⟩ <;> exact fun _ _ _ => rfl

/-- C6: the full URL is always `host ++ "/api/v1beta1/" ++ path`;
`DeletePod name` hands `rawRequest` exactly one DELETE request for path
`"pods/" ++ name` with no request body, and (having no decode target)
returns `none` for the error on any successful response. -/
theorem makeURL_deletePod_contract :
    (∀ host path : Str, makeURL host path = host ++ str "/api/v1beta1/" ++ path) ∧
    (∀ (env : Env) (name : Str),
      (DeletePod env name).2 =
        [⟨str "DELETE", makeURL env.host (str "pods/" ++ name), str "pods/" ++ name, none⟩]) ∧
    (∀ (env : Env) (name : Str) (status : Nat) (statusText body : Str),
      env.newReqErr = none →
      env.transport = .response status statusText (.ok body) →
      200 ≤ status → status ≤ 206 →
      (DeletePod env name).1 = none) := by
  refine ⟨fun _ _ => rfl, ?_, ?_⟩
  · intro env name
    rw [DeletePod]
    exact rawRequest_trace env (str "DELETE") (str "pods/" ++ name) none false
  · intro env name status statusText body h1 h2 h3 h4
    have h := rawRequest_ok env (str "DELETE") (str "pods/" ++ name) none false
      status statusText body h1 h2 h3 h4
    show (rawRequest env (str "DELETE") (str "pods/" ++ name) none false).1.2 = none
    rw [h]
    simp

/-- Witness for C6's success conjunct at a concrete environment. -/
theorem makeURL_deletePod_contract_witness :
    (DeletePod
      ⟨str "http://h", none, fun _ => str "req",
        .response 200 (str "200 OK") (.ok (str "")), fun _ => none⟩
      (str "p")).1 = none :=
  makeURL_deletePod_contract.2.2
    ⟨str "http://h", none, fun _ => str "req",
      .response 200 (str "200 OK") (.ok (str "")), fun _ => none⟩
    (str "p") 200 (str "200 OK") (str "") rfl rfl (by decide) (by decide)

/-- C7: `ListPods` hands `rawRequest` exactly one GET request, with path
`"pods"` when the selector is nil/empty and
`"pods?labels=" ++ EncodeSelector selector` otherwise; the path depends on
nothing but the selector. -/
theorem listPods_path_contract (env : Env) (selector : List (Str × Str)) :
    (ListPods env selector).2 =
      [⟨str "GET",
        makeURL env.host
          (if selector = [] then str "pods"
            else str "pods" ++ str "?labels=" ++ EncodeSelector selector),
        (if selector = [] then str "pods"
          else str "pods" ++ str "?labels=" ++ EncodeSelector selector),
        none⟩] := by
  cases selector with
  | nil => simp [ListPods, rawRequest_trace]
  | cons p rest => simp [ListPods, rawRequest_trace]

/-- C8: on a successful response (status in `[200, 206]`, body fully read)
with a non-nil target, `rawRequest` returns the raw body bytes together
with the outcome of `api.DecodeInto` on them: a decode failure is reported
as the error, yet the already-read raw bytes are still returned. -/
theorem rawRequest_decode_returns_rawBytes (env : Env) (method path : Str)
    (requestBody : Option Str) (status : Nat) (statusText body : Str)
    (h1 : env.newReqErr = none)
    (h2 : env.transport = .response status statusText (.ok body))
    (h3 : 200 ≤ status) (h4 : status ≤ 206) :
    (rawRequest env method path requestBody true).1 = (body, env.decodeInto body) := by
  rw [rawRequest_ok env method path requestBody true status statusText body h1 h2 h3 h4]
  simp

/-- Witness for C8 at a concrete environment whose decoder fails: the raw
bytes are returned next to the decode error. -/
theorem rawRequest_decode_returns_rawBytes_witness :
    (rawRequest
      ⟨str "http://h", none, fun _ => str "req",
        .response 200 (str "200 OK") (.ok (str "body")),
        fun _ => some (str "decode failure")⟩
      (str "GET") (str "pods") none true).1 = (str "body", some (str "decode failure")) :=
  rawRequest_decode_returns_rawBytes
    ⟨str "http://h", none, fun _ => str "req",
      .response 200 (str "200 OK") (.ok (str "body")),
      fun _ => some (str "decode failure")⟩
    (str "GET") (str "pods") none 200 (str "200 OK") (str "body")
    rfl rfl (by decide) (by decide)

/-- C9: `DecodeSelector` never produces two entries with the same key, and
on a wire string whose last fragment is `k=v` (with clean `k`, `v`) the
entry for `k` holds `v` — a later fragment overwrites any earlier fragment
with the same key; in particular `"a=1,a=2"` decodes to `{"a": "2"}`. -/
theorem decodeSelector_lastFragment_wins :
    (∀ s : Str, ((DecodeSelector s).map Prod.fst).Nodup) ∧
    (∀ pre k v : Str, '=' ∉ k → '=' ∉ v → ',' ∉ k → ',' ∉ v →
      mapLookup k (DecodeSelector (pre ++ ',' :: (k ++ '=' :: v))) = some v) ∧
    DecodeSelector (str "a=1,a=2") = [(str "a", str "2")] := by
  refine ⟨?_, ?_, by decide⟩
  · intro s
    rw [DecodeSelector]
    by_cases h : s.length = 0
    · rw [if_pos h]
      exact List.nodup_nil
    · rw [if_neg h]
      exact foldl_decodeStep_nodup_fst _ [] List.nodup_nil
  · intro pre k v hk hv hck hcv
    have hfrag : ',' ∉ k ++ '=' :: v := by
      intro hc
      rcases List.mem_append.mp hc with hin | hin
      · exact hck hin
      · rcases List.mem_cons.mp hin with he | hin2
        · exact absurd he (by decide)
        · exact hcv hin2
    rw [DecodeSelector, if_neg (by simp), splitChar_append, List.foldl_append,
      splitChar_of_not_mem hfrag, List.foldl_cons, List.foldl_nil,
      decodeStep, splitChar_pair hk hv]
    exact mapLookup_mapInsert_self k v _

/-- Witness for C9's overwrite conjunct at the wire string `"a=1,a=2"`. -/
theorem decodeSelector_lastFragment_wins_witness :
    mapLookup (str "a")
      (DecodeSelector (str "a=1" ++ ',' :: (str "a" ++ '=' :: str "2"))) = some (str "2") :=
  decodeSelector_lastFragment_wins.2.1 (str "a=1") (str "a") (str "2")
    (by decide) (by decide) (by decide) (by decide)

/-- C10: encoding the empty (or nil) selector yields the empty string, and
the empty selector round-trips exactly through encode then decode. -/
theorem encodeSelector_empty_roundTrip :
    EncodeSelector [] = [] ∧ DecodeSelector (EncodeSelector []) = [] :=
  ⟨rfl, rfl⟩

end KubeClient
